import Mathlib

/-
Verification of the core of `matomo_import_logs.py`: shallow Lean embedding of
the run-state substrate, the retrying transport wrapper, the bulk-tracking
failure callback, the recorder flush, the classification filter chain, the
hit-normalization field extractors, and the log-format detector.
-/

namespace MatomoImport

/-! ## Run state (`class State`, matomo_import_logs.py lines 1520-1545)

The Python class holds `_stopped : bool` and `_reason : Optional[str]` behind a
lock; the lock serializes accesses, so the sequential model below captures each
(atomic) method body. -/

structure State where
  stopped : Bool
  reason : Option String
deriving DecidableEq, Repr

/-- The constructor `State.__init__`: `_stopped = True`, `_reason = None`. -/
def State.init : State :=
  { stopped := true, reason := none }

/-- `State.start`: sets `_stopped = False` (leaves `_reason` untouched). -/
def State.start (s : State) : State :=
  { s with stopped := false }

/-- `State.stop(reason)`: returns unchanged when already stopped, otherwise
sets `_stopped = True` and `_reason = reason`. -/
def State.stop (s : State) (reason : Option String) : State :=
  if s.stopped then s else { stopped := true, reason := reason }

/-! ## Transport retry wrapper (`Matomo._call_wrapper`, lines 652-698)

Each attempt either returns a response or fails (network exception, or an
unexpected response turned into a raised `URLError`).  The wrapper counts
errors; while `errors < max_attempts` it sleeps and retries, otherwise it
raises `Matomo.Error(message, code)`.  An attempt is modelled as a function
from the attempt index to `Except`; the fuel is `maxAttempts - errors`. -/

structure MatomoError where
  message : String
  code : Option Nat
deriving DecidableEq, Repr

inductive CallOutcome (α : Type) where
  | ok : α → CallOutcome α
  | fatal : MatomoError → CallOutcome α
deriving DecidableEq, Repr

/-- The retry loop of `Matomo._call_wrapper`, together with the number of
attempts performed.  `errors` is the count of failed attempts so far; the
attempt being executed is attempt number `errors + 1`. -/
def call_wrapper_go (func : Nat → Except MatomoError α) (maxAttempts : Nat)
    (errors : Nat) : CallOutcome α × Nat :=
  match func errors with
  | Except.ok v => (CallOutcome.ok v, errors + 1)
  | Except.error e =>
    if h : errors + 1 < maxAttempts then
      call_wrapper_go func maxAttempts (errors + 1)
    else
      (CallOutcome.fatal e, errors + 1)
termination_by maxAttempts - errors
decreasing_by omega

/-- `Matomo._call_wrapper` starting from zero recorded errors. -/
def call_wrapper (func : Nat → Except MatomoError α) (maxAttempts : Nat) :
    CallOutcome α × Nat :=
  call_wrapper_go func maxAttempts 0

/-! ## Recorder worker error handling (`Recorder._run_bulk`, lines 779-784)

On `Matomo.Error`, the worker logs, calls
`state.stop(f"Encountered error {e} in file {...}")` and breaks out of its
loop.  The returned `Bool` is whether the loop continues. -/

/-- The `except Matomo.Error` branch of `Recorder._run_bulk`: stop the shared
state with the formatted reason and exit the loop (`false`). -/
def run_bulk_on_error (s : State) (e : MatomoError) (filename : String) :
    State × Bool :=
  (s.stop (some ("Encountered error " ++ e.message ++ " in file " ++ filename)),
   false)

/-! ## Bulk-tracking failure callback (`Recorder._on_tracking_failure`,
lines 928-944)

The callback parses the collector's reply; when the reply is not JSON it
returns it untouched, otherwise it drops the first `tracked` requests from the
payload (in place) and returns the reply's `message`. -/

structure TrackerResponse where
  tracked : Nat
  message : String
deriving DecidableEq, Repr

structure TrackingData where
  token_auth : String
  requests : List String
deriving DecidableEq, Repr

/-- `Recorder._on_tracking_failure`: `resp = none` models an unparseable
(non-JSON) response, in which case the payload is untouched; otherwise
`data['requests'] = data['requests'][tracked:]` and `response['message']`
is returned. -/
def on_tracking_failure (resp : Option TrackerResponse) (d : TrackingData) :
    TrackingData × Option String :=
  match resp with
  | none => (d, none)
  | some r => ({ d with requests := d.requests.drop r.tracked }, some r.message)

/-! ## Recorder flush (`Recorder._record_hits`, lines 872-925)

When the private hit list is empty the method returns at once; otherwise it
builds the payload, issues exactly one transport call (which either yields a
response or raises `Matomo.Error` after its retries), then advances
`count_lines_recorded` by the number of hits and clears the list.  The second
component counts the transport calls issued. -/

structure RecorderState where
  hits : List String
  count_lines_recorded : Nat
deriving DecidableEq, Repr

/-- `Recorder._record_hits`, with the transport call's outcome supplied as
`resp`; `Except.error` propagates the raised `Matomo.Error` (state
unchanged), and the `Nat` counts transport calls issued. -/
def record_hits (rs : RecorderState) (resp : Except MatomoError String) :
    Except MatomoError RecorderState × Nat :=
  if rs.hits.length = 0 then
    (Except.ok rs, 0)
  else
    match resp with
    | Except.error e => (Except.error e, 1)
    | Except.ok _ =>
      (Except.ok { hits := [],
                   count_lines_recorded :=
                     rs.count_lines_recorded + rs.hits.length }, 1)

/-! ## Hits and the classification filter chain (`class Hit`, `Parser.check_*`,
lines 946-953, 1041-1078, 1241-1252)

`Parser.parse` constructs each `Hit` with all five classification flags
`False`; the `check_*` predicates may set flags and always return `True`.
Only the fields the verified claims touch are modelled. -/

structure Hit where
  status : String
  is_meta : Bool
  is_download : Bool
  is_robot : Bool
  is_error : Bool
  is_redirect : Bool
deriving DecidableEq, Repr

/-- The flag initialization of the `Hit(...)` construction in `Parser.parse`:
all five classification flags start `False`. -/
def Hit.fresh (status : String) : Hit :=
  { status := status, is_meta := false, is_download := false,
    is_robot := false, is_error := false, is_redirect := false }

/-- Python `int(c)` on a single character: defined only for a decimal digit
(`int` raises `ValueError` otherwise, modelled by `none`). -/
def pyIntChar (c : Char) : Option Nat :=
  if c.isDigit then some (c.toNat - 48) else none

/-- `Parser.check_http_error`: sets `is_error` when
`4 <= int(hit.status[0]) <= 5`, returns `True`.  `none` models the exception
raised on an empty status string or a non-digit leading character. -/
def check_http_error (h : Hit) : Option (Hit × Bool) :=
  match h.status.data with
  | [] => none
  | c :: _ =>
    match pyIntChar c with
    | none => none
    | some d =>
      some ((if 4 ≤ d ∧ d ≤ 5 then { h with is_error := true } else h), true)

/-- `Parser.check_http_redirect`: sets `is_redirect` when
`hit.status[0] == '3' and hit.status != '304'`, returns `True`.  `none`
models the `IndexError` on an empty status string. -/
def check_http_redirect (h : Hit) : Option (Hit × Bool) :=
  match h.status.data with
  | [] => none
  | c :: _ =>
    some ((if c = '3' ∧ h.status ≠ "304" then { h with is_redirect := true }
           else h), true)

/-! ## Delivery decision at the end of `Parser.parse` (lines 1359-1368)

After the filter chain and date parsing, `is_filtered` (a no-op extension
point returning `(False, None)`) may veto the hit, and then the hit is handed
to `Recorder.add_hit` exactly when
`(not is_robot) and (is_meta or is_download) and (not is_redirect)`. -/

/-- `Parser.is_filtered` (lines 1164-1173): always `(False, None)`. -/
def is_filtered (_h : Hit) : Bool × Option String :=
  (false, none)

/-- The tail of the `Parser.parse` loop body for one surviving hit: the list
of hits passed to `Recorder.add_hit` (either `[hit]` or `[]`). -/
def parse_enqueue (h : Hit) : List Hit :=
  if (is_filtered h).1 then []
  else if (!h.is_robot) && (h.is_meta || h.is_download) && (!h.is_redirect)
  then [h]
  else []

/-! ## Referrer / user-agent extraction (`Parser.parse`, lines 1258-1276)

Python strings are modelled as `List Char`; a raw field of `none` models the
`BaseFormatException` raised by `format.get` when the field is missing.
`s[1:-1]` is `(s.drop 1).dropLast`. -/

/-- Referrer extraction: missing field gives `''`; a value starting with `"`
has its first and last characters removed; afterwards `'-'` becomes `''`. -/
def extract_referrer (raw : Option (List Char)) : List Char :=
  let r : List Char :=
    match raw with
    | none => []
    | some s => if s.head? = some '"' then (s.drop 1).dropLast else s
  if r = ['-'] then [] else r

/-- User-agent extraction: missing field gives `''`; a value starting with
`"` has its first and last characters removed.  Note the source has no
placeholder (`'-'`) replacement for the user agent. -/
def extract_user_agent (raw : Option (List Char)) : List Char :=
  match raw with
  | none => []
  | some s => if s.head? = some '"' then (s.drop 1).dropLast else s

/-! ## IP anonymization (`Parser.parse`, lines 1280-1283)

`ip0, ip1, *_ = hit.ip.split('.'); hit.ip = f"{ip0}.{ip1}.0.0"` when the
option is enabled.  `split_on_dot` models Python `str.split('.')` (empty
pieces preserved, `''.split('.') == ['']`); fewer than two pieces make the
unpacking raise, modelled by `none`. -/

def split_on_dot : List Char → List (List Char)
  | [] => [[]]
  | c :: rest =>
    match split_on_dot rest with
    | [] => [[]]
    | w :: ws => if c = '.' then [] :: w :: ws else (c :: w) :: ws

/-- The IP-anonymization step of `Parser.parse`. -/
def anonymize_ip (enabled : Bool) (ip : List Char) : Option (List Char) :=
  if enabled then
    match split_on_dot ip with
    | ip0 :: ip1 :: _ =>
      some (ip0 ++ ('.' :: ip1) ++ ['.', '0', '.', '0'])
    | _ => none
  else
    some ip

/-! ## Generation-time normalization (`Parser.parse`, lines 1291-1300)

Nested `try/except` over `float(format.get(...))`: an absent field
(`BaseFormatException`) or non-numeric value (`ValueError`) falls through to
the next case.  A field is modelled as `Option ℚ`: `none` means absent or
non-numeric, `some q` the successfully parsed numeric value. -/

/-- The generation-time cascade: milliseconds verbatim, else microseconds
divided by 1000, else seconds times 1000, else 0. -/
def generation_time_milli (milli micro secs : Option ℚ) : ℚ :=
  match milli with
  | some m => m
  | none =>
    match micro with
    | some u => u / 1000
    | none =>
      match secs with
      | some s => s * 1000
      | none => 0

/-! ## Format auto-detection (`Parser.check_format`, lines 1080-1125)

The loop walks the `FORMATS` catalog in insertion order, skipping `'ovh'`.
Per candidate, the matcher either fails (`noMatch`), returns a regex match
object exposing `len(match.groups())` captured fields (`groupsMatch`), or
returns a group-less truthy value — the `AttributeError` branch taken by the
structured-JSON variant (`plainMatch`).  A line is therefore modelled by the
outcome it produces for every catalog entry. -/

inductive MatchOutcome where
  | noMatch : MatchOutcome
  | groupsMatch : Nat → MatchOutcome
  | plainMatch : MatchOutcome
deriving DecidableEq, Repr

/-- The loop of `Parser.check_format`: `i` is the index of the first entry of
`c` in the whole catalog, `best` the currently elected entry's index
(`format`, initially `False` ≈ `none`), `bestG` the `format_groups`
accumulator.  The `plainMatch` arm elects the candidate without touching
`format_groups`, exactly as the `except AttributeError` branch does. -/
def check_format_go : List (String × MatchOutcome) → Nat → Option Nat → Nat →
    Option Nat
  | [], _, best, _ => best
  | (name, o) :: rest, i, best, bestG =>
    if name = "ovh" then check_format_go rest (i + 1) best bestG
    else
      match o with
      | MatchOutcome.noMatch => check_format_go rest (i + 1) best bestG
      | MatchOutcome.groupsMatch g =>
        if bestG < g then check_format_go rest (i + 1) (some i) g
        else check_format_go rest (i + 1) best bestG
      | MatchOutcome.plainMatch => check_format_go rest (i + 1) (some i) bestG

/-- `Parser.check_format` on the per-entry outcomes of one input: the index
of the elected catalog entry, or `none` when no candidate is elected. -/
def check_format (c : List (String × MatchOutcome)) : Option Nat :=
  check_format_go c 0 none 0

/-! Claim-side selection rule, written from the spec's words: among the
variants that match (auto-detectable ones, i.e. not `'ovh'`), pick the one
whose match yields the greatest number of captured fields; ties keep the
first matching variant in catalog iteration order. -/

/-- Captured-field count of one catalog entry for the given input: `0` for
the auto-detection-excluded `'ovh'` entry and for non-matches. -/
def countOf : String × MatchOutcome → Nat
  | (name, o) =>
    if name = "ovh" then 0
    else
      match o with
      | MatchOutcome.groupsMatch g => g
      | _ => 0

/-- Greatest captured-field count over the catalog. -/
def maxCount : List (String × MatchOutcome) → Nat
  | [] => 0
  | e :: rest => max (countOf e) (maxCount rest)

/-- Index of the first entry attaining the greatest captured-field count:
the spec's tie-breaking rule (first matching variant in iteration order). -/
def firstMaxIdx : List (String × MatchOutcome) → Nat
  | [] => 0
  | e :: rest => if maxCount rest ≤ countOf e then 0 else firstMaxIdx rest + 1

/-! Claim-side description of what the loop actually elects, JSON branch
included: scanning with current best count `t`, an entry takes over the
election when it is auto-detectable (not `'ovh'`) and either takes the
group-less (structured-JSON/`AttributeError`) path or exposes strictly more
captured fields than the best count so far.  The elected entry is the last
one, in catalog order, to take over. -/

/-- Whether one catalog entry takes over the election when the best
captured-field count so far is `t`. -/
def winsHead (t : Nat) (e : String × MatchOutcome) : Bool :=
  if e.1 = "ovh" then false
  else
    match e.2 with
    | MatchOutcome.noMatch => false
    | MatchOutcome.groupsMatch g => decide (t < g)
    | MatchOutcome.plainMatch => true

/-- Relative index of the last entry that takes over the election when the
best captured-field count entering the scan is `t`. -/
def lastWinIdx (t : Nat) : List (String × MatchOutcome) → Option Nat
  | [] => none
  | e :: rest =>
    match lastWinIdx (max t (countOf e)) rest with
    | some j => some (j + 1)
    | none => if winsHead t e then some 0 else none

/-- Entry `i` takes over the election when reached by the scan: it is
auto-detectable and either is a group-less (structured-JSON) match or
captures strictly more fields than every earlier candidate. -/
def winsAt (fmts : List (String × MatchOutcome)) (i : Nat) : Prop :=
  ∃ p, fmts[i]? = some p ∧ p.1 ≠ "ovh" ∧
    (p.2 = MatchOutcome.plainMatch ∨
      maxCount (List.take i fmts) < countOf p)

/-! ## Helper lemmas -/

/-- Stopping an already-stopped state is a no-op. -/
theorem State.stop_of_stopped (s : State) (r : Option String)
    (h : s.stopped = true) : s.stop r = s := by
  simp [State.stop, h]

/-- Folding any sequence of stop requests over a stopped state is a no-op. -/
theorem State.foldl_stop_of_stopped (rs : List (Option String)) (s : State)
    (h : s.stopped = true) : rs.foldl State.stop s = s := by
  induction rs with
  | nil => rfl
  | cons r rs ih => rw [List.foldl_cons, State.stop_of_stopped s r h, ih]

/-! ## Claim theorems -/

/-- C9: after `State.start`, the state is running; the first `State.stop r`
flips `stopped` from `false` to `true` and records `r`; and any further
sequence of `stop` calls leaves the state (flag and reason) unchanged, so
the first reason wins. -/
theorem State.stop_first_reason_wins (s : State) (r : Option String)
    (rs : List (Option String)) :
    (s.start).stopped = false ∧
    ((s.start).stop r).stopped = true ∧
    ((s.start).stop r).reason = r ∧
    rs.foldl State.stop ((s.start).stop r) = (s.start).stop r := by
  refine ⟨rfl, ?_, ?_, ?_⟩
  · simp [State.start, State.stop]
  · simp [State.start, State.stop]
  · exact State.foldl_stop_of_stopped rs _ (by simp [State.start, State.stop])

/-- C1: a hit that survives the filter chain and date parsing is handed to
`Recorder.add_hit` if and only if it is not a robot hit, not a redirect,
and is metadata or a download. -/
theorem parse_enqueue_iff (h : Hit) :
    parse_enqueue h = [h] ↔
      h.is_robot = false ∧ h.is_redirect = false ∧
        (h.is_meta = true ∨ h.is_download = true) := by
  obtain ⟨st, m, d, r, e, rd⟩ := h
  cases m <;> cases d <;> cases r <;> cases rd <;>
    simp [parse_enqueue, is_filtered]

/-- C10: flushing an empty batch is a no-op: `_record_hits` on an empty hit
list returns at once, issues no transport call, and leaves the recorder
state (including `count_lines_recorded`) unchanged. -/
theorem record_hits_empty_noop (rs : RecorderState)
    (resp : Except MatomoError String) (hempty : rs.hits = []) :
    record_hits rs resp = (Except.ok rs, 0) := by
  simp [record_hits, hempty]

/-- Witness for C10 at a concrete empty recorder state. -/
theorem record_hits_empty_noop_witness :
    record_hits ⟨[], 7⟩ (Except.ok "resp") = (Except.ok ⟨[], 7⟩, 0) :=
  record_hits_empty_noop ⟨[], 7⟩ (Except.ok "resp") rfl

/-- C2: a partially-successful response reporting `tracked = k` makes the
failure callback keep exactly the requests at indices `k..n-1`, in order
(the token is untouched and the collector's message is returned), and a
second partial failure truncates again from the already-truncated list, so
the first `k` requests are never re-sent.  Instantiated at the spec's
10-request, `tracked: 4` example. -/
theorem on_tracking_failure_truncates (k k2 : Nat) (m m2 : String)
    (d : TrackingData) :
    ((on_tracking_failure (some ⟨k, m⟩) d).1.token_auth = d.token_auth ∧
     (on_tracking_failure (some ⟨k, m⟩) d).1.requests.length =
       d.requests.length - k ∧
     (∀ i : Nat, (on_tracking_failure (some ⟨k, m⟩) d).1.requests[i]? =
       d.requests[k + i]?) ∧
     (on_tracking_failure (some ⟨k, m⟩) d).2 = some m ∧
     (on_tracking_failure (some ⟨k2, m2⟩)
         (on_tracking_failure (some ⟨k, m⟩) d).1).1.requests =
       d.requests.drop (k + k2)) ∧
    on_tracking_failure (some ⟨4, "tracking failed"⟩)
        ⟨"tok", ["r1", "r2", "r3", "r4", "r5", "r6", "r7", "r8", "r9", "r10"]⟩ =
      (⟨"tok", ["r5", "r6", "r7", "r8", "r9", "r10"]⟩,
       some "tracking failed") := by
  refine ⟨⟨rfl, ?_, ?_, rfl, ?_⟩, rfl⟩
  · simp [on_tracking_failure]
  · intro i
    simp [on_tracking_failure, List.getElem?_drop]
  · simp [on_tracking_failure, List.drop_drop, Nat.add_comm]

/-- C5: generation time in milliseconds comes from the first present field
among {milliseconds, microseconds, seconds} (microseconds divided by 1000,
seconds multiplied by 1000) and defaults to 0, with the spec's sample
values 150 / 150000 / 0.15 all yielding 150. -/
theorem generation_time_milli_cascade :
    (∀ (m : ℚ) (mu s : Option ℚ), generation_time_milli (some m) mu s = m) ∧
    (∀ (u : ℚ) (s : Option ℚ),
      generation_time_milli none (some u) s = u / 1000) ∧
    (∀ s : ℚ, generation_time_milli none none (some s) = s * 1000) ∧
    generation_time_milli none none none = 0 ∧
    generation_time_milli (some 150) none none = 150 ∧
    generation_time_milli none (some 150000) none = 150 ∧
    generation_time_milli none none (some 0.15) = 150 := by
  refine ⟨fun m mu s => rfl, fun u s => rfl, fun s => rfl, rfl, rfl, ?_, ?_⟩
  · norm_num [generation_time_milli]
  · norm_num [generation_time_milli]

/-- C7 counterexample: a user-agent field equal to the placeholder `"-"` is
not replaced by the empty string — the code only does that for the
referrer. -/
theorem extract_user_agent_dash_kept :
    extract_user_agent (some ['-']) = ['-'] ∧ ['-'] ≠ ([] : List Char) := by
  constructor
  · rfl
  · decide

/-- C7 amended: the referrer gets one layer of enclosing quotes stripped,
the placeholder `'-'` replaced by the empty string, and a missing field
yields the empty string; the user agent gets the quote stripping and the
missing-field default, but a `'-'` user agent is kept verbatim. -/
theorem extract_fields_amended :
    extract_referrer none = [] ∧
    extract_referrer (some ['-']) = [] ∧
    (∀ l : List Char, extract_referrer (some ('"' :: (l ++ ['"']))) =
      if l = ['-'] then [] else l) ∧
    extract_user_agent none = [] ∧
    (∀ l : List Char, extract_user_agent (some ('"' :: (l ++ ['"']))) = l) ∧
    extract_user_agent (some ['-']) = ['-'] := by
  refine ⟨rfl, rfl, fun l => ?_, rfl, fun l => ?_, rfl⟩
  · simp [extract_referrer, List.dropLast_concat]
  · simp [extract_user_agent, List.dropLast_concat]

/-- C8: with anonymization enabled, `203.0.113.77` becomes `203.0.0.0`
(last two IPv4 octets zeroed); with it disabled, any IP is unchanged. -/
theorem anonymize_ip_spec :
    anonymize_ip true "203.0.113.77".data = some "203.0.0.0".data ∧
    ∀ ip : List Char, anonymize_ip false ip = some ip := by
  exact ⟨by decide, fun ip => rfl⟩

/-- C3: with a maximum attempt count of 3 and a transport that fails on
every attempt, `_call_wrapper` performs exactly 3 attempts (2 retries) and
then raises `Matomo.Error` carrying the last attempt's message and optional
status code; a recorder worker catching that error stops the shared run
state with a reason and exits its loop. -/
theorem call_wrapper_three_attempts (func : Nat → Except MatomoError Unit)
    (err : Nat → MatomoError) (hfail : ∀ n, func n = Except.error (err n)) :
    call_wrapper func 3 = (CallOutcome.fatal (err 2), 3) ∧
    ∀ (s : State) (fname : String), s.stopped = false →
      (run_bulk_on_error s (err 2) fname).1.stopped = true ∧
      (run_bulk_on_error s (err 2) fname).1.reason =
        some ("Encountered error " ++ (err 2).message ++ " in file " ++
          fname) ∧
      (run_bulk_on_error s (err 2) fname).2 = false := by
  constructor
  · show call_wrapper_go func 3 0 = _
    rw [call_wrapper_go, hfail 0]
    norm_num
    rw [call_wrapper_go, hfail 1]
    norm_num
    rw [call_wrapper_go, hfail 2]
    norm_num
  · intro s fname hs
    refine ⟨?_, ?_, rfl⟩ <;> simp [run_bulk_on_error, State.stop, hs]

/-- Witness for C3: a transport failing each attempt with a concrete error
carrying HTTP status 500. -/
theorem call_wrapper_three_attempts_witness :
    call_wrapper
        (fun _ => (Except.error ⟨"connection refused", some 500⟩ :
          Except MatomoError Unit))
        3 = (CallOutcome.fatal ⟨"connection refused", some 500⟩, 3) ∧
    (run_bulk_on_error (State.init.start) ⟨"connection refused", some 500⟩
        "access.log").1.stopped = true ∧
    (run_bulk_on_error (State.init.start) ⟨"connection refused", some 500⟩
        "access.log").1.reason =
      some "Encountered error connection refused in file access.log" ∧
    (run_bulk_on_error (State.init.start) ⟨"connection refused", some 500⟩
        "access.log").2 = false := by
  have h := call_wrapper_three_attempts
    (fun _ => (Except.error ⟨"connection refused", some 500⟩ :
      Except MatomoError Unit))
    (fun _ => ⟨"connection refused", some 500⟩) (fun n => rfl)
  exact ⟨h.1, h.2 State.init.start "access.log" rfl⟩

/-- The three-digit status string built from digits `d1 d2 d3`. -/
def mkStatus (d1 d2 d3 : Fin 10) : String :=
  String.mk [Nat.digitChar d1.val, Nat.digitChar d2.val,
             Nat.digitChar d3.val]

/-- C6: on any three-digit status, `check_http_error` accepts and sets
`is_error` exactly when the status lies in [400,599], and
`check_http_redirect` accepts and sets `is_redirect` exactly when the
status lies in [300,399] and differs from 304. -/
theorem http_checks_status_ranges :
    ∀ d1 d2 d3 : Fin 10,
      check_http_error (Hit.fresh (mkStatus d1 d2 d3)) =
        some ({ Hit.fresh (mkStatus d1 d2 d3) with
                is_error := decide
                  (400 ≤ 100 * d1.val + 10 * d2.val + d3.val ∧
                   100 * d1.val + 10 * d2.val + d3.val ≤ 599) }, true) ∧
      check_http_redirect (Hit.fresh (mkStatus d1 d2 d3)) =
        some ({ Hit.fresh (mkStatus d1 d2 d3) with
                is_redirect := decide
                  (300 ≤ 100 * d1.val + 10 * d2.val + d3.val ∧
                   100 * d1.val + 10 * d2.val + d3.val ≤ 399 ∧
                   100 * d1.val + 10 * d2.val + d3.val ≠ 304) }, true) := by
  decide

/-! ## Detector lemmas (C4) -/

/-- Every entry's captured-field count is bounded by the catalog maximum. -/
theorem countOf_le_maxCount :
    ∀ (fmts : List (String × MatchOutcome)) (j : Nat) (p : String × MatchOutcome),
      fmts[j]? = some p → countOf p ≤ maxCount fmts := by
  intro fmts
  induction fmts with
  | nil => intro j p hp; simp at hp
  | cons e rest ih =>
    intro j p hp
    cases j with
    | zero =>
      rw [List.getElem?_cons_zero, Option.some.injEq] at hp
      subst hp
      simp only [maxCount]
      exact Nat.le_max_left _ _
    | succ j =>
      rw [List.getElem?_cons_succ] at hp
      have := ih j p hp
      simp only [maxCount]
      exact le_trans this (Nat.le_max_right _ _)

/-- When some entry matches, the first-maximum index is in range and its
entry attains the catalog maximum. -/
theorem getElem_firstMaxIdx_eq_maxCount :
    ∀ fmts : List (String × MatchOutcome), 0 < maxCount fmts →
      ∃ p, fmts[firstMaxIdx fmts]? = some p ∧ countOf p = maxCount fmts := by
  intro fmts
  induction fmts with
  | nil => intro h; simp [maxCount] at h
  | cons e rest ih =>
    intro h
    by_cases hle : maxCount rest ≤ countOf e
    · refine ⟨e, ?_, ?_⟩
      · simp [firstMaxIdx, hle]
      · simp only [maxCount]
        omega
    · have hrest : 0 < maxCount rest := by omega
      obtain ⟨p, hget, hcnt⟩ := ih hrest
      refine ⟨p, ?_, ?_⟩
      · simp only [firstMaxIdx, if_neg hle, List.getElem?_cons_succ]
        exact hget
      · simp only [maxCount]
        omega

/-- Entries strictly before the first-maximum index have strictly smaller
captured-field counts: the tie-break keeps the first maximal entry. -/
theorem countOf_lt_of_lt_firstMaxIdx :
    ∀ (fmts : List (String × MatchOutcome)) (j : Nat) (p : String × MatchOutcome),
      j < firstMaxIdx fmts → fmts[j]? = some p → countOf p < maxCount fmts := by
  intro fmts
  induction fmts with
  | nil => intro j p hj hp; simp at hp
  | cons e rest ih =>
    intro j p hj hp
    by_cases hle : maxCount rest ≤ countOf e
    · simp [firstMaxIdx, hle] at hj
    · simp only [firstMaxIdx, if_neg hle] at hj
      cases j with
      | zero =>
        rw [List.getElem?_cons_zero, Option.some.injEq] at hp
        subst hp
        simp only [maxCount]
        omega
      | succ j =>
        rw [List.getElem?_cons_succ] at hp
        have := ih j p (Nat.lt_of_succ_lt_succ hj) hp
        simp only [maxCount]
        omega

/-- Characterization of the `Parser.check_format` loop: provided no
considered candidate takes the group-less (`AttributeError`) path, starting
from accumulators `best`/`bestG` it elects the first entry whose
captured-field count exceeds `bestG` and is maximal over the remaining
catalog. -/
theorem check_format_go_eq (fmts : List (String × MatchOutcome))
    (hp : ∀ p ∈ fmts, p.1 = "ovh" ∨ p.2 ≠ MatchOutcome.plainMatch) :
    ∀ (i : Nat) (best : Option Nat) (bestG : Nat),
      check_format_go fmts i best bestG =
        if bestG < maxCount fmts then some (i + firstMaxIdx fmts) else best := by
  induction fmts with
  | nil => intro i best bestG; simp [check_format_go, maxCount]
  | cons e rest ih =>
    intro i best bestG
    obtain ⟨name, o⟩ := e
    have hrest : ∀ p ∈ rest, p.1 = "ovh" ∨ p.2 ≠ MatchOutcome.plainMatch :=
      fun p hmem => hp p (List.mem_cons_of_mem _ hmem)
    by_cases hn : name = "ovh"
    · subst hn
      have hstep : check_format_go (("ovh", o) :: rest) i best bestG =
          check_format_go rest (i + 1) best bestG := by
        simp [check_format_go]
      have hc : countOf ("ovh", o) = 0 := by simp [countOf]
      rw [hstep, ih hrest]
      simp only [maxCount, firstMaxIdx, hc, Nat.zero_max]
      split_ifs with h1 h2
      · exact absurd h1 (by omega)
      · simp only [Option.some.injEq]; omega
      · rfl
    · cases o with
      | plainMatch =>
        exact absurd (hp (name, MatchOutcome.plainMatch)
          (List.mem_cons_self _ _)) (by simp [hn])
      | noMatch =>
        have hstep : check_format_go ((name, MatchOutcome.noMatch) :: rest) i
            best bestG = check_format_go rest (i + 1) best bestG := by
          simp [check_format_go, hn]
        have hc : countOf (name, MatchOutcome.noMatch) = 0 := by
          simp [countOf, hn]
        rw [hstep, ih hrest]
        simp only [maxCount, firstMaxIdx, hc, Nat.zero_max]
        split_ifs with h1 h2
        · exact absurd h1 (by omega)
        · simp only [Option.some.injEq]; omega
        · rfl
      | groupsMatch g =>
        have hstep :
            check_format_go ((name, MatchOutcome.groupsMatch g) :: rest) i
              best bestG =
              if bestG < g then check_format_go rest (i + 1) (some i) g
              else check_format_go rest (i + 1) best bestG := by
          simp [check_format_go, hn]
        have hc : countOf (name, MatchOutcome.groupsMatch g) = g := by
          simp [countOf, hn]
        rw [hstep]
        simp only [maxCount, firstMaxIdx, hc]
        by_cases hbg : bestG < g
        · rw [if_pos hbg, ih hrest]
          have houter : bestG < max g (maxCount rest) :=
            lt_of_lt_of_le hbg (Nat.le_max_left _ _)
          rw [if_pos houter]
          by_cases hgm : maxCount rest ≤ g
          · rw [if_neg (by omega : ¬ g < maxCount rest), if_pos hgm]
            simp
          · rw [if_pos (by omega : g < maxCount rest), if_neg hgm]
            simp only [Option.some.injEq]; omega
        · rw [if_neg hbg, ih hrest]
          have hgb : g ≤ bestG := by omega
          by_cases hbm : bestG < maxCount rest
          · have houter : bestG < max g (maxCount rest) :=
              lt_of_lt_of_le hbm (Nat.le_max_right _ _)
            rw [if_pos hbm, if_pos houter,
              if_neg (by omega : ¬ maxCount rest ≤ g)]
            simp only [Option.some.injEq]; omega
          · have houter : ¬ bestG < max g (maxCount rest) := by
              rw [Nat.not_lt] at hbm ⊢
              exact Nat.max_le.mpr ⟨hgb, hbm⟩
            rw [if_neg hbm, if_neg houter]

/-- Unfolding of `winsHead` into the take-over condition. -/
theorem winsHead_eq_true_iff (t : Nat) (e : String × MatchOutcome) :
    winsHead t e = true ↔
      e.1 ≠ "ovh" ∧ (e.2 = MatchOutcome.plainMatch ∨ t < countOf e) := by
  obtain ⟨name, o⟩ := e
  by_cases hn : name = "ovh" <;> cases o <;> simp [winsHead, countOf, hn]

/-- Shifting the take-over condition across the head of the catalog. -/
theorem winsArg_cons (t : Nat) (e p : String × MatchOutcome)
    (rest : List (String × MatchOutcome)) (j : Nat) :
    (p.2 = MatchOutcome.plainMatch ∨
      max t (maxCount (List.take (j + 1) (e :: rest))) < countOf p) ↔
    (p.2 = MatchOutcome.plainMatch ∨
      max (max t (countOf e)) (maxCount (List.take j rest)) < countOf p) := by
  rw [List.take_succ_cons]
  simp only [maxCount]
  constructor <;> (rintro (hp | hlt)
                   · exact Or.inl hp
                   · exact Or.inr (by omega))

/-- Full characterization of the `Parser.check_format` loop, group-less
(structured-JSON) branch included: it returns the last entry that takes over
the election, offset by `i`, and otherwise the incoming `best`. -/
theorem check_format_go_lastWinIdx :
    ∀ (fmts : List (String × MatchOutcome)) (i : Nat) (best : Option Nat)
      (bestG : Nat),
      check_format_go fmts i best bestG =
        match lastWinIdx bestG fmts with
        | some j => some (i + j)
        | none => best := by
  intro fmts
  induction fmts with
  | nil => intro i best bestG; simp [check_format_go, lastWinIdx]
  | cons e rest ih =>
    intro i best bestG
    obtain ⟨name, o⟩ := e
    by_cases hn : name = "ovh"
    · subst hn
      have hstep : check_format_go (("ovh", o) :: rest) i best bestG =
          check_format_go rest (i + 1) best bestG := by
        simp [check_format_go]
      have hc : countOf ("ovh", o) = 0 := by simp [countOf]
      have hw : winsHead bestG ("ovh", o) = false := by simp [winsHead]
      rw [hstep, ih]
      simp only [lastWinIdx, hc, Nat.max_zero]
      cases hrw : lastWinIdx bestG rest with
      | some j =>
        simp only [hrw, Option.some.injEq]
        omega
      | none => simp [hrw, hw]
    · cases o with
      | noMatch =>
        have hstep :
            check_format_go ((name, MatchOutcome.noMatch) :: rest) i best
              bestG = check_format_go rest (i + 1) best bestG := by
          simp [check_format_go, hn]
        have hc : countOf (name, MatchOutcome.noMatch) = 0 := by
          simp [countOf, hn]
        have hw : winsHead bestG (name, MatchOutcome.noMatch) = false := by
          simp [winsHead, hn]
        rw [hstep, ih]
        simp only [lastWinIdx, hc, Nat.max_zero]
        cases hrw : lastWinIdx bestG rest with
        | some j =>
          simp only [hrw, Option.some.injEq]
          omega
        | none => simp [hrw, hw]
      | plainMatch =>
        have hstep :
            check_format_go ((name, MatchOutcome.plainMatch) :: rest) i best
              bestG = check_format_go rest (i + 1) (some i) bestG := by
          simp [check_format_go, hn]
        have hc : countOf (name, MatchOutcome.plainMatch) = 0 := by
          simp [countOf, hn]
        have hw : winsHead bestG (name, MatchOutcome.plainMatch) = true := by
          simp [winsHead, hn]
        rw [hstep, ih]
        simp only [lastWinIdx, hc, Nat.max_zero]
        cases hrw : lastWinIdx bestG rest with
        | some j =>
          simp only [hrw, Option.some.injEq]
          omega
        | none => simp [hrw, hw]
      | groupsMatch g =>
        have hstep :
            check_format_go ((name, MatchOutcome.groupsMatch g) :: rest) i
              best bestG =
              if bestG < g then check_format_go rest (i + 1) (some i) g
              else check_format_go rest (i + 1) best bestG := by
          simp [check_format_go, hn]
        have hc : countOf (name, MatchOutcome.groupsMatch g) = g := by
          simp [countOf, hn]
        have hw : winsHead bestG (name, MatchOutcome.groupsMatch g) =
            decide (bestG < g) := by
          simp [winsHead, hn]
        rw [hstep]
        simp only [lastWinIdx, hc, hw]
        by_cases hbg : bestG < g
        · rw [if_pos hbg, ih, Nat.max_eq_right (Nat.le_of_lt hbg)]
          cases hrw : lastWinIdx g rest with
          | some j =>
            simp only [hrw, Option.some.injEq]
            omega
          | none => simp [hrw, hbg]
        · rw [if_neg hbg, ih, Nat.max_eq_left (by omega)]
          cases hrw : lastWinIdx bestG rest with
          | some j =>
            simp only [hrw, Option.some.injEq]
            omega
          | none => simp [hrw, hbg]

/-- The entry elected by the scan does take over the election. -/
theorem lastWinIdx_some_wins :
    ∀ (fmts : List (String × MatchOutcome)) (t j : Nat),
      lastWinIdx t fmts = some j →
      ∃ p, fmts[j]? = some p ∧ p.1 ≠ "ovh" ∧
        (p.2 = MatchOutcome.plainMatch ∨
          max t (maxCount (List.take j fmts)) < countOf p) := by
  intro fmts
  induction fmts with
  | nil => intro t j h; simp [lastWinIdx] at h
  | cons e rest ih =>
    intro t j h
    simp only [lastWinIdx] at h
    cases hrw : lastWinIdx (max t (countOf e)) rest with
    | some j' =>
      rw [hrw] at h
      obtain rfl : j' + 1 = j := by simpa using h
      obtain ⟨p, hget, hovh, hwin⟩ := ih (max t (countOf e)) j' hrw
      refine ⟨p, ?_, hovh, ?_⟩
      · rw [List.getElem?_cons_succ]
        exact hget
      · exact (winsArg_cons t e p rest j').mpr hwin
    | none =>
      rw [hrw] at h
      by_cases hwh : winsHead t e = true
      · rw [if_pos hwh] at h
        obtain rfl : 0 = j := by simpa using h
        obtain ⟨hovh, hcond⟩ := (winsHead_eq_true_iff t e).mp hwh
        refine ⟨e, List.getElem?_cons_zero, hovh, ?_⟩
        rcases hcond with hp | hlt
        · exact Or.inl hp
        · exact Or.inr (by simp only [List.take_zero, maxCount]; omega)
      · rw [if_neg hwh] at h
        exact absurd h (by simp)

/-- When no entry takes over the election, none satisfies the take-over
condition. -/
theorem lastWinIdx_none_no_wins :
    ∀ (fmts : List (String × MatchOutcome)) (t j : Nat),
      lastWinIdx t fmts = none →
      ¬∃ p, fmts[j]? = some p ∧ p.1 ≠ "ovh" ∧
        (p.2 = MatchOutcome.plainMatch ∨
          max t (maxCount (List.take j fmts)) < countOf p) := by
  intro fmts
  induction fmts with
  | nil =>
    intro t j h
    rintro ⟨p, hget, -⟩
    simp at hget
  | cons e rest ih =>
    intro t j h
    simp only [lastWinIdx] at h
    cases hrw : lastWinIdx (max t (countOf e)) rest with
    | some j' =>
      rw [hrw] at h
      exact absurd h (by simp)
    | none =>
      rw [hrw] at h
      have hwh : winsHead t e = false := by
        by_cases hb : winsHead t e = true
        · rw [if_pos hb] at h
          exact absurd h (by simp)
        · simpa using hb
      cases j with
      | zero =>
        rintro ⟨p, hget, hovh, hwin⟩
        rw [List.getElem?_cons_zero, Option.some.injEq] at hget
        subst hget
        have hwt : winsHead t e = true := by
          rw [winsHead_eq_true_iff]
          refine ⟨hovh, ?_⟩
          rcases hwin with hp | hlt
          · exact Or.inl hp
          · refine Or.inr ?_
            simp only [List.take_zero, maxCount] at hlt
            omega
        rw [hwt] at hwh
        exact absurd hwh (by simp)
      | succ j' =>
        rintro ⟨p, hget, hovh, hwin⟩
        rw [List.getElem?_cons_succ] at hget
        exact ih (max t (countOf e)) j' hrw
          ⟨p, hget, hovh, (winsArg_cons t e p rest j').mp hwin⟩

/-- No entry after the one elected by the scan takes over the election. -/
theorem lastWinIdx_no_later_wins :
    ∀ (fmts : List (String × MatchOutcome)) (t j k : Nat),
      lastWinIdx t fmts = some j → j < k →
      ¬∃ p, fmts[k]? = some p ∧ p.1 ≠ "ovh" ∧
        (p.2 = MatchOutcome.plainMatch ∨
          max t (maxCount (List.take k fmts)) < countOf p) := by
  intro fmts
  induction fmts with
  | nil => intro t j k h; simp [lastWinIdx] at h
  | cons e rest ih =>
    intro t j k h hjk
    simp only [lastWinIdx] at h
    cases hrw : lastWinIdx (max t (countOf e)) rest with
    | some j' =>
      rw [hrw] at h
      obtain rfl : j' + 1 = j := by simpa using h
      cases k with
      | zero => omega
      | succ k' =>
        rintro ⟨p, hget, hovh, hwin⟩
        rw [List.getElem?_cons_succ] at hget
        exact ih (max t (countOf e)) j' k' hrw (by omega)
          ⟨p, hget, hovh, (winsArg_cons t e p rest k').mp hwin⟩
    | none =>
      rw [hrw] at h
      cases k with
      | zero => omega
      | succ k' =>
        rintro ⟨p, hget, hovh, hwin⟩
        rw [List.getElem?_cons_succ] at hget
        exact lastWinIdx_none_no_wins rest (max t (countOf e)) k' hrw
          ⟨p, hget, hovh, (winsArg_cons t e p rest k').mp hwin⟩

/-- C4 counterexample: on an input where a regex variant matches with 14
captured fields and the structured-JSON variant also matches (the group-less
`AttributeError` branch), `check_format` elects the JSON variant (index 1),
not the variant with the greatest number of captured fields (index 0), so
the claimed greatest-captured-fields selection rule fails. -/
theorem check_format_json_override_cex :
    check_format [("s3", MatchOutcome.groupsMatch 14),
                  ("nginx_json", MatchOutcome.plainMatch)] = some 1 ∧
    (if 0 < maxCount [("s3", MatchOutcome.groupsMatch 14),
                      ("nginx_json", MatchOutcome.plainMatch)]
     then some (firstMaxIdx [("s3", MatchOutcome.groupsMatch 14),
                             ("nginx_json", MatchOutcome.plainMatch)])
     else none) = some 0 ∧
    (some 1 : Option Nat) ≠ some 0 := by
  decide

/-- C4 amended: detection considers every catalog variant except `'ovh'`.
Among matching variants whose match exposes a captured-field count (every
regex-based variant), the one with the greatest count is elected, ties
resolved in favor of the first in catalog iteration order — but a matching
structured-JSON variant, whose match exposes no captured-field count,
unconditionally displaces the previously elected variant without updating
the best-count accumulator.  In general the elected variant is the last
one, in catalog order, that either is a group-less (structured-JSON) match
or exposes strictly more captured fields than every variant before it; no
variant is elected exactly when no variant does so. -/
theorem check_format_json_amended (fmts : List (String × MatchOutcome)) :
    ((∀ p ∈ fmts, p.1 = "ovh" ∨ p.2 ≠ MatchOutcome.plainMatch) →
      check_format fmts =
        (if 0 < maxCount fmts then some (firstMaxIdx fmts) else none) ∧
      (∀ (j : Nat) (p : String × MatchOutcome), fmts[j]? = some p →
        countOf p ≤ maxCount fmts) ∧
      (0 < maxCount fmts →
        ∃ p, fmts[firstMaxIdx fmts]? = some p ∧
          countOf p = maxCount fmts ∧
          ∀ (j : Nat) (q : String × MatchOutcome), j < firstMaxIdx fmts →
            fmts[j]? = some q → countOf q < maxCount fmts)) ∧
    (∀ i : Nat, check_format fmts = some i →
      winsAt fmts i ∧ ∀ j : Nat, i < j → ¬ winsAt fmts j) ∧
    (check_format fmts = none → ∀ j : Nat, ¬ winsAt fmts j) := by
  have hgo : check_format fmts =
      match lastWinIdx 0 fmts with
      | some j => some (0 + j)
      | none => none :=
    check_format_go_lastWinIdx fmts 0 none 0
  refine ⟨fun hp => ⟨?_, countOf_le_maxCount fmts, ?_⟩, ?_, ?_⟩
  · rw [check_format, check_format_go_eq fmts hp 0 none 0]
    simp
  · intro h
    obtain ⟨p, hget, hcnt⟩ := getElem_firstMaxIdx_eq_maxCount fmts h
    exact ⟨p, hget, hcnt,
      fun j q hlt hq => countOf_lt_of_lt_firstMaxIdx fmts j q hlt hq⟩
  · intro i hi
    rw [hgo] at hi
    cases hlw : lastWinIdx 0 fmts with
    | none =>
      rw [hlw] at hi
      exact absurd hi (by simp)
    | some j =>
      rw [hlw] at hi
      obtain rfl : j = i := by simpa using hi
      constructor
      · obtain ⟨p, hget, hovh, hwin⟩ := lastWinIdx_some_wins fmts 0 j hlw
        refine ⟨p, hget, hovh, ?_⟩
        rcases hwin with hp | hlt
        · exact Or.inl hp
        · exact Or.inr (by omega)
      · intro k hk
        rintro ⟨p, hget, hovh, hwin⟩
        refine lastWinIdx_no_later_wins fmts 0 j k hlw hk
          ⟨p, hget, hovh, ?_⟩
        rcases hwin with hp | hlt
        · exact Or.inl hp
        · exact Or.inr (by omega)
  · intro hnone j
    rw [hgo] at hnone
    cases hlw : lastWinIdx 0 fmts with
    | some j' =>
      rw [hlw] at hnone
      exact absurd hnone (by simp)
    | none =>
      rintro ⟨p, hget, hovh, hwin⟩
      refine lastWinIdx_none_no_wins fmts 0 j hlw ⟨p, hget, hovh, ?_⟩
      rcases hwin with hp | hlt
      · exact Or.inl hp
      · exact Or.inr (by omega)

/-- Witness for C4 (amended) on a concrete catalog shaped like `FORMATS`
with no structured-JSON match: two variants tie at 14 captured fields, the
earlier one (index 2) wins, and the higher-count `'ovh'` entry is
ignored. -/
theorem check_format_json_amended_witness :
    check_format [("common", MatchOutcome.groupsMatch 10),
                  ("w3c_extended", MatchOutcome.noMatch),
                  ("iis", MatchOutcome.groupsMatch 14),
                  ("s3", MatchOutcome.groupsMatch 14),
                  ("ovh", MatchOutcome.groupsMatch 20)] = some 2 := by
  rw [((check_format_json_amended _).1 (by decide)).1]
  decide

end MatomoImport
